import Mathlib

/-!
Verification development for the MPKG schema-canonicalization core.

The definitions below are a shallow embedding of the two canonicalizer
variants of the repository:

* `src/schema_canonicalization.py` — class `SchemaCanonicalizer` (the
  "plain" variant), and
* `src/edc/schema_canonicalization_cot.py` — class
  `SchemaCanonicalizer_CoT` (the chain-of-thought variant).

Modelling conventions:

* Python strings are Lean `String`s (lists of unicode code points).
* Python `dict`s (insertion ordered) are association lists
  `List (String × α)` with the usual dict operations; `d[k] = v` keeps
  the position of an existing key and appends a fresh one, exactly as
  CPython does.
* Numeric embedding vectors are `List ℚ` (the claims under scrutiny do
  not depend on floating-point rounding); the embedding model itself is
  an external capability and is passed in as a function parameter
  (`Embedder`), as is the generative model's raw textual reply and the
  external `np.argsort` routine.
* Fallible Python operations (`d[k]`, `lst[i]`) are modelled in the
  `Except PyErr` monad; a `canonicalize` call returns its result
  together with the (possibly mutated) canonicalizer state, and an
  exception leaves the state exactly as the Python code would.
* The regular-expression chains of the answer extractors are embedded
  by a small token-list matcher (`RTok`, `matchToks`, `searchToks`)
  whose leftmost-match search mirrors `re.search`.  Every pattern used
  by the source has the property that a greedy `\s*` never needs
  backtracking (the token following `\s*` never matches a whitespace
  character), so maximal-munch matching is exact.
-/

/-- Python exceptions that the embedded code can raise. -/
inductive PyErr where
  | keyError
  | indexError
  | typeError
  deriving DecidableEq, Repr

/-! ## Python-style insertion-ordered dictionaries as association lists -/

/-- The keys of a dict, in insertion order (`list(d.keys())`). -/
def dictKeys {α : Type} (d : List (String × α)) : List String :=
  d.map Prod.fst

/-- The values of a dict, in insertion order (`list(d.values())`). -/
def dictValues {α : Type} (d : List (String × α)) : List α :=
  d.map Prod.snd

/-- Python `k in d`. -/
def dictContains {α : Type} (d : List (String × α)) (k : String) : Bool :=
  d.any (fun p => p.1 == k)

/-- Python `d.get(k)` / successful `d[k]`: value of the first entry with key `k`. -/
def dictGet {α : Type} (d : List (String × α)) (k : String) : Option α :=
  (d.find? (fun p => p.1 == k)).map Prod.snd

/-- Python `d[k] = v`: replace the value at an existing key in place,
append a fresh key at the end. -/
def dictSet {α : Type} (d : List (String × α)) (k : String) (v : α) : List (String × α) :=
  if dictContains d k then d.map (fun p => if p.1 == k then (k, v) else p)
  else d ++ [(k, v)]

/-! ## Character classes (Python `str` predicates and regex classes) -/

/-- Python `\s` / `str.strip()` whitespace, for the code points this
program manipulates (ASCII whitespace; the source never feeds exotic
unicode spaces through its own string literals). -/
def pyIsSpace (c : Char) : Bool :=
  c == ' ' || c == '\t' || c == '\n' || c == '\r' || c.toNat == 11 || c.toNat == 12

/-- Python `str.isalpha` restricted to the code points this program
manipulates: ASCII letters and CJK ideographs (the Chinese words
appearing in model output such as 选项/答案/更合适 are alphabetic for
Python). -/
def pyIsAlpha (c : Char) : Bool :=
  ('A' ≤ c && c ≤ 'Z') || ('a' ≤ c && c ≤ 'z') || (0x4E00 ≤ c.toNat && c.toNat ≤ 0x9FFF)

/-- Python `str.upper` on a single character (ASCII; CJK characters are
fixed points, as in Python). -/
def upperChar (c : Char) : Char :=
  if 'a' ≤ c && c ≤ 'z' then Char.ofNat (c.toNat - 32) else c

/-- ASCII lower-casing, used for case-insensitive (`re.IGNORECASE`) literals. -/
def lowerChar (c : Char) : Char :=
  if 'A' ≤ c && c ≤ 'Z' then Char.ofNat (c.toNat + 32) else c

/-- Regex class `[A-Z]`. -/
def isUpperAZ (c : Char) : Bool := 'A' ≤ c && c ≤ 'Z'

/-- Regex class `[A-Za-z]` (also `[A-Z]` under `re.IGNORECASE`). -/
def isAsciiLetter (c : Char) : Bool :=
  ('A' ≤ c && c ≤ 'Z') || ('a' ≤ c && c ≤ 'z')

/-- Regex class `[:：]` (ASCII and fullwidth colon). -/
def isColon (c : Char) : Bool := c == ':' || c == '：'

/-- Python `str.strip()`. -/
def pyStrip (s : String) : String :=
  String.mk (((s.data.dropWhile pyIsSpace).reverse.dropWhile pyIsSpace).reverse)

/-! ## A miniature regex engine for the source's fixed patterns

Each pattern of the source is a fixed sequence of tokens: literals
(case sensitive or not), a greedy `\s*`, single-character classes and a
single-character capture group.  `matchToks` matches a token list at
the start of a character list, `searchToks` performs `re.search`'s
leftmost-match scan and also reports the match start (used by
`extract_cot_answer` for `match.start()`). -/

/-- One token of a source regex. -/
inductive RTok where
  /-- A case-sensitive literal. -/
  | lit : List Char → RTok
  /-- A case-insensitive (ASCII) literal, for patterns compiled with
  `re.IGNORECASE`. -/
  | litCI : List Char → RTok
  /-- Token `\s*` (greedy; in every source pattern the next token cannot match
  a whitespace character, so maximal munch is exact). -/
  | spaces : RTok
  /-- A single-character class. -/
  | cls : (Char → Bool) → RTok
  /-- The single-character capture group `(...)`. -/
  | grp : (Char → Bool) → RTok

/-- Case-insensitive prefix test for ASCII literals. -/
def ciMatchesStart (l s : List Char) : Bool :=
  decide (l.map lowerChar = (s.take l.length).map lowerChar) && decide (l.length ≤ s.length)

/-- Match a token list at the start of `s`; returns the captured group
character, if the pattern has one. -/
def matchToks : List RTok → List Char → Option (Option Char)
  | [], _ => some none
  | .lit l :: ts, s =>
      if l.isPrefixOf s then matchToks ts (s.drop l.length) else none
  | .litCI l :: ts, s =>
      if ciMatchesStart l s then matchToks ts (s.drop l.length) else none
  | .spaces :: ts, s => matchToks ts (s.dropWhile pyIsSpace)
  | .cls p :: ts, s =>
      match s with
      | [] => none
      | c :: rest => if p c then matchToks ts rest else none
  | .grp p :: ts, s =>
      match s with
      | [] => none
      | c :: rest =>
          if p c then
            match matchToks ts rest with
            | some _ => some (some c)
            | none => none
          else none

/-- Leftmost-match scan, carrying the current start index. -/
def searchToksAux (toks : List RTok) : List Char → Nat → Option (Nat × Option Char)
  | [], i =>
      match matchToks toks [] with
      | some cap => some (i, cap)
      | none => none
  | s@(_ :: rest), i =>
      match matchToks toks s with
      | some cap => some (i, cap)
      | none => searchToksAux toks rest (i + 1)

/-- Model of `re.search`: leftmost match of the pattern in `s`, with its start index. -/
def searchToks (toks : List RTok) (s : List Char) : Option (Nat × Option Char) :=
  searchToksAux toks s 0

/-- The captured letter of the leftmost match, if any. -/
def searchLetter (toks : List RTok) (s : List Char) : Option Char :=
  match searchToks toks s with
  | some (_, some c) => some c
  | _ => none

/-! ## The plain variant's answer extractor
(`SchemaCanonicalizer.extract_option_letter`, src/schema_canonicalization.py:74-144).
All patterns are case sensitive with an explicit `[A-Za-z]` group. -/

/-- Pattern `选项\s*([A-Za-z])`. -/
def patOptionCn : List RTok := [.lit ['选', '项'], .spaces, .grp isAsciiLetter]

/-- Pattern `([A-Za-z])\s*选项`. -/
def patLetterOptionCn : List RTok := [.grp isAsciiLetter, .spaces, .lit ['选', '项']]

/-- Pattern `选择\s*([A-Za-z])`. -/
def patChooseCn : List RTok := [.lit ['选', '择'], .spaces, .grp isAsciiLetter]

/-- Pattern `[Aa]nswer\s*[:：]\s*([A-Za-z])`. -/
def patAnswerEn : List RTok :=
  [.cls (fun c => c == 'A' || c == 'a'), .lit ['n', 's', 'w', 'e', 'r'],
   .spaces, .cls isColon, .spaces, .grp isAsciiLetter]

/-- Pattern `答案\s*[:：]\s*([A-Za-z])`. -/
def patAnswerCn : List RTok :=
  [.lit ['答', '案'], .spaces, .cls isColon, .spaces, .grp isAsciiLetter]

/-- Pattern `^([A-Za-z])[.,。，\s]` (anchored, so matched only at position 0). -/
def patStart : List RTok :=
  [.grp isAsciiLetter,
   .cls (fun c => c == '.' || c == ',' || c == '。' || c == '，' || pyIsSpace c)]

/-- Pattern `[^A-Za-z]([A-Za-z])[^A-Za-z]`, applied to `' ' + text + ' '`. -/
def patIsolated : List RTok :=
  [.cls (fun c => !isAsciiLetter c), .grp isAsciiLetter, .cls (fun c => !isAsciiLetter c)]

/-- Pattern `([A-Za-z])\s*更合适`. -/
def patSuitableCn : List RTok := [.grp isAsciiLetter, .spaces, .lit ['更', '合', '适']]

/-- Step 9 of the plain extractor: all alphabetic characters of the text,
upper-cased. -/
def fallbackLetters (s : List Char) : List Char :=
  (s.filter pyIsAlpha).map upperChar

/-- The plain extractor's last resort: prefer the first letter in `A`–`F`,
else the first letter found, else `None`. -/
def fallbackPick (letters : List Char) : Option Char :=
  match letters.find? (fun c => 'A' ≤ c && c ≤ 'F') with
  | some c => some c
  | none => letters.head?

/-- Embedding of `SchemaCanonicalizer.extract_option_letter`
(src/schema_canonicalization.py:74-144): the case-sensitive regex chain
of the plain variant, evaluated first-match-wins. -/
def extract_option_letter (text : String) : Option Char :=
  let s := text.data
  if s.length == 1 && s.all pyIsAlpha then (s.map upperChar).head?
  else
    match searchLetter patOptionCn s with
    | some c => some (upperChar c)
    | none =>
    match searchLetter patLetterOptionCn s with
    | some c => some (upperChar c)
    | none =>
    match searchLetter patChooseCn s with
    | some c => some (upperChar c)
    | none =>
    match searchLetter patAnswerEn s with
    | some c => some (upperChar c)
    | none =>
    match searchLetter patAnswerCn s with
    | some c => some (upperChar c)
    | none =>
    match (matchToks patStart s).bind id with
    | some c => some (upperChar c)
    | none =>
    match searchLetter patIsolated (' ' :: s ++ [' ']) with
    | some c => some (upperChar c)
    | none =>
    match searchLetter patSuitableCn s with
    | some c => some (upperChar c)
    | none => fallbackPick (fallbackLetters s)

/-! ## The CoT variant's answer extractor
(`SchemaCanonicalizer_CoT.extract_option_letter`,
src/edc/schema_canonicalization_cot.py:106-143).  The input is stripped
first, the pattern list is compiled with `re.IGNORECASE` (so the `[A-Z]`
groups accept both cases), the isolated-letter scan is *uppercase only*
(no flag), and the last resort returns only a letter in `A`–`F` (no
first-letter fallback). -/

/-- Pattern `[Aa]nswer\s*[:：]\s*([A-Z])` compiled with `re.IGNORECASE`
(equivalently: the literal `answer` case-insensitively). -/
def patAnswerEnCI : List RTok :=
  [.litCI ['a', 'n', 's', 'w', 'e', 'r'], .spaces, .cls isColon, .spaces, .grp isAsciiLetter]

/-- Pattern `[^A-Z]([A-Z])[^A-Z]` — the CoT isolated-letter scan is compiled
without flags, so it is uppercase-only, unlike the plain variant's. -/
def patIsolatedUpper : List RTok :=
  [.cls (fun c => !isUpperAZ c), .grp isUpperAZ, .cls (fun c => !isUpperAZ c)]

/-- Pattern `^([A-Z])$` under `re.IGNORECASE` on the stripped text: the whole
text is one ASCII letter. -/
def cotSingleAsciiLetter (s : List Char) : Option Char :=
  match s with
  | [c] => if isAsciiLetter c then some c else none
  | _ => none

/-- Embedding of `SchemaCanonicalizer_CoT.extract_option_letter`
(src/edc/schema_canonicalization_cot.py:106-143). -/
def extract_option_letter_cot (text : String) : Option Char :=
  let s := (pyStrip text).data
  if s.length == 1 && s.all pyIsAlpha then (s.map upperChar).head?
  else
    match cotSingleAsciiLetter s with
    | some c => some (upperChar c)
    | none =>
    match searchLetter patOptionCn s with
    | some c => some (upperChar c)
    | none =>
    match searchLetter patLetterOptionCn s with
    | some c => some (upperChar c)
    | none =>
    match searchLetter patChooseCn s with
    | some c => some (upperChar c)
    | none =>
    match searchLetter patAnswerEnCI s with
    | some c => some (upperChar c)
    | none =>
    match searchLetter patAnswerCn s with
    | some c => some (upperChar c)
    | none =>
    match (matchToks patStart s).bind id with
    | some c => some (upperChar c)
    | none =>
    match searchLetter patSuitableCn s with
    | some c => some (upperChar c)
    | none =>
    match searchLetter patIsolatedUpper (' ' :: s ++ [' ']) with
    | some c => some (upperChar c)
    | none => (fallbackLetters s).find? (fun c => 'A' ≤ c && c ≤ 'F')

/-! ## `extract_cot_answer`
(`SchemaCanonicalizer_CoT.extract_cot_answer`,
src/edc/schema_canonicalization_cot.py:145-181). -/

/-- Pattern `最终答案\s*[:：]\s*([A-Z])` (`re.IGNORECASE`). -/
def patFinalAnswerCn : List RTok :=
  [.lit ['最', '终', '答', '案'], .spaces, .cls isColon, .spaces, .grp isAsciiLetter]

/-- Pattern `Final Answer\s*[:：]\s*([A-Z])` (`re.IGNORECASE`). -/
def patFinalAnswerEn : List RTok :=
  [.litCI ['f', 'i', 'n', 'a', 'l', ' ', 'a', 'n', 's', 'w', 'e', 'r'],
   .spaces, .cls isColon, .spaces, .grp isAsciiLetter]

/-- The first `k` characters of a string (`s[:k]`). -/
def strTake (s : String) (k : Nat) : String :=
  String.mk (s.data.take k)

/-- The explicit final/plain answer patterns with their confidences, in
the source's order (src/edc/schema_canonicalization_cot.py:148-153). -/
def cotPatterns : List (List RTok × ℚ) :=
  [(patFinalAnswerCn, 1), (patFinalAnswerEn, 1), (patAnswerCn, 9/10), (patAnswerEnCI, 9/10)]

/-- The source's pattern loop: first matching pattern wins, yielding
`(cot_text[:match.start()].strip(), group(1).upper(), confidence)`. -/
def cotPatternScan (text : String) : List (List RTok × ℚ) → Option (String × Char × ℚ)
  | [] => none
  | (pat, conf) :: rest =>
      match searchToks pat text.data with
      | some (k, some c) => some (pyStrip (strTake text k), upperChar c, conf)
      | _ => cotPatternScan text rest

/-- Python `str.split('\n')` on a character list (structural, so that
the kernel can evaluate it). -/
def splitLinesAux : List Char → List (List Char)
  | [] => [[]]
  | c :: rest =>
      match splitLinesAux rest with
      | [] => [[]]
      | l :: ls => if c = '\n' then [] :: l :: ls else (c :: l) :: ls

/-- The non-empty stripped lines of `cot_text.strip().split('\n')`. -/
def cotLines (cot_text : String) : List String :=
  ((splitLinesAux (pyStrip cot_text).data).map (fun l => pyStrip (String.mk l))).filter
    (fun l => l ≠ "")

/-- Strategy 3/4 of `extract_cot_answer`: scan the full text with the
single-letter extractor (confidence 0.5), else fail (confidence 0.0). -/
def cotScanFull (cot_text : String) : String × Option Char × ℚ :=
  match extract_option_letter_cot cot_text with
  | some c => (cot_text, some c, 1/2)
  | none => (cot_text, none, 0)

/-- Embedding of `SchemaCanonicalizer_CoT.extract_cot_answer`
(src/edc/schema_canonicalization_cot.py:145-181): returns
`(reasoning, letter?, confidence)`. -/
def extract_cot_answer (cot_text : String) : String × Option Char × ℚ :=
  match cotPatternScan cot_text cotPatterns with
  | some (reasoning, c, conf) => (reasoning, some c, conf)
  | none =>
      let lines := cotLines cot_text
      match lines.getLast? with
      | some last_line =>
          match extract_option_letter_cot last_line with
          | some c => (pyStrip (String.intercalate ("\n") lines.dropLast), some c, 7/10)
          | none => cotScanFull cot_text
      | none => cotScanFull cot_text

/-! ## Embeddings, canonicalizer state, candidate retrieval -/

/-- The external sentence-embedding capability.  `hasStsQuery` models
`"sts_query" in self.embedder.prompts`; `encodeSts` is
`encode(text, prompt_name="sts_query")`. -/
structure Embedder where
  hasStsQuery : Bool
  encode : String → List ℚ
  encodeSts : String → List ℚ

/-- The query-side encoding choice used by both variants for retrieval
and for enrichment (src/schema_canonicalization.py:52-55,266-271;
src/edc/schema_canonicalization_cot.py:92-95,362-370). -/
def encodeQuery (emb : Embedder) (s : String) : List ℚ :=
  if emb.hasStsQuery then emb.encodeSts s else emb.encode s

/-- The mutable state of either canonicalizer class: `self.schema_dict`
and `self.schema_embedding_dict` (both variants manage these two fields
identically). -/
structure CanonState where
  schema_dict : List (String × String)
  schema_embedding_dict : List (String × List ℚ)

/-- Embedding of `__init__`: store the target schema and embed each relation
definition in insertion order (src/schema_canonicalization.py:34-44;
src/edc/schema_canonicalization_cot.py:46-62). -/
def initCanonicalizer (emb : Embedder) (target_schema_dict : List (String × String)) :
    CanonState :=
  { schema_dict := target_schema_dict,
    schema_embedding_dict := target_schema_dict.map (fun p => (p.1, emb.encode p.2)) }

/-- Dot product of two embedding vectors (the row of
`np.array([q]) @ np.array(embs).T`). -/
def dot (a b : List ℚ) : ℚ := (List.zipWith (fun x y => x * y) a b).sum

/-- The dict comprehension
`{names[idx]: schema_dict[names[idx]] for idx in idxs}`, built in
iteration order; Python raises `IndexError`/`KeyError` on a bad index
or a name missing from `schema_dict`. -/
def buildSimilarAux (names : List String) (schema : List (String × String)) :
    List Nat → List (String × String) → Except PyErr (List (String × String))
  | [], acc => .ok acc
  | i :: rest, acc =>
      match names.get? i with
      | none => .error .indexError
      | some nm =>
          match dictGet schema nm with
          | none => .error .keyError
          | some df => buildSimilarAux names schema rest (dictSet acc nm df)

/-- The list comprehension `[scores[idx] for idx in idxs]`. -/
def selectScores (scores : List ℚ) : List Nat → Except PyErr (List ℚ)
  | [] => .ok []
  | i :: rest =>
      match scores.get? i with
      | none => .error .indexError
      | some sc =>
          match selectScores scores rest with
          | .ok l => .ok (sc :: l)
          | .error e => .error e

/-- Embedding of `retrieve_similar_relations` (src/schema_canonicalization.py:46-72;
identical logic in src/edc/schema_canonicalization_cot.py:87-104).  The
external `np.argsort(-scores)` call is the parameter `argsortNeg`: the
repository does not own it, so no ordering property is assumed of it
here; theorems either hold for every such function or hypothesise what
they need. -/
def retrieve_similar_relations (emb : Embedder) (argsortNeg : List ℚ → List Nat)
    (st : CanonState) (query_relation_definition : String) (top_k : Nat := 5) :
    Except PyErr (List (String × String) × List ℚ) :=
  let names := dictKeys st.schema_embedding_dict
  let q := encodeQuery emb query_relation_definition
  let scores := (dictValues st.schema_embedding_dict).map (fun v => dot q v)
  let idxs := (argsortNeg scores).take top_k
  match buildSimilarAux names st.schema_dict idxs [] with
  | .error e => .error e
  | .ok cands =>
      match selectScores scores idxs with
      | .error e => .error e
      | .ok ss => .ok (cands, ss)

/-! ## Multiple-choice letters and `llm_verify` -/

/-- The letters assigned to `n` candidates:
`chr(ord('@') + idx + 1)` for `idx = 0, …, n-1`
(src/schema_canonicalization.py:164-166;
src/edc/schema_canonicalization_cot.py:214-216). -/
def choiceLetters (n : Nat) : List Char :=
  (List.range n).map (fun i => Char.ofNat (64 + i + 1))

/-- The "None of the above" letter:
`chr(ord('@') + len(candidate_relations) + 1)`
(src/schema_canonicalization.py:170;
src/edc/schema_canonicalization_cot.py:220). -/
def noneLetter (n : Nat) : Char :=
  Char.ofNat (64 + n + 1)

/-- Embedding of `SchemaCanonicalizer.llm_verify` (src/schema_canonicalization.py:146-219).
`verification_result` is the raw text returned by the external
generation capability for this call (the prompt rendering and the model
invocation are outside the repository's algorithmic core; no claim
depends on the prompt text).  `relation_example_dict` is `None` at the
only call site, so that dead branch is omitted.  The source deep-copies
`query_triplet` before writing index 1; with immutable lists this is
`List.set` (the in-repo caller guarantees the triplet has length 3). -/
def llm_verify (verification_result : String) (query_triplet : List String)
    (candidate_relation_definition_dict : List (String × String)) :
    Option (List String) :=
  let candidate_relations := dictKeys candidate_relation_definition_dict
  let letters := choiceLetters candidate_relations.length
  match extract_option_letter verification_result with
  | none => none
  | some extracted =>
      match letters.indexOf? extracted with
      | none => none
      | some selected_index =>
          match candidate_relations.get? selected_index with
          | none => none
          | some selected_relation => some (query_triplet.set 1 selected_relation)

/-- The dictionary returned by the CoT `llm_verify` on success
(src/edc/schema_canonicalization_cot.py:275-281). -/
structure VerifyResult where
  triplet : List String
  reasoning : String
  confidence : ℚ
  raw_output : String
  selected_option : Char

/-- Embedding of `SchemaCanonicalizer_CoT.llm_verify`
(src/edc/schema_canonicalization_cot.py:183-286). -/
def llm_verify_cot (verification_result : String) (query_triplet : List String)
    (candidate_relation_definition_dict : List (String × String)) :
    Option VerifyResult :=
  let candidate_relations := dictKeys candidate_relation_definition_dict
  let letters := choiceLetters candidate_relations.length
  let ext := extract_cot_answer verification_result
  match ext.2.1 with
  | none => none
  | some extracted =>
      match letters.indexOf? extracted with
      | none => none
      | some selected_index =>
          match candidate_relations.get? selected_index with
          | none => none
          | some selected_relation =>
              some { triplet := query_triplet.set 1 selected_relation,
                     reasoning := ext.1,
                     confidence := ext.2.2,
                     raw_output := verification_result,
                     selected_option := extracted }

/-! ## `canonicalize` -/

/-- The retrieval + verification stage of the plain `canonicalize`
(src/schema_canonicalization.py:237-259): with a non-empty schema and a
supplied definition, retrieve candidates and run LLM verification;
otherwise the attempt yields no triplet and no candidates. -/
def canonicalizeAttempt (emb : Embedder) (argsortNeg : List ℚ → List Nat)
    (verification_result : String) (st : CanonState)
    (open_triplet : List String)
    (open_relation_definition_dict : List (String × String)) (open_relation : String) :
    Except PyErr (Option (List String) × List (String × String) × List ℚ) :=
  if st.schema_dict.length ≠ 0 then
    match dictGet open_relation_definition_dict open_relation with
    | none => .ok (none, [], [])
    | some d =>
        match retrieve_similar_relations emb argsortNeg st d 5 with
        | .error e => .error e
        | .ok (cands, scores) =>
            .ok (llm_verify verification_result open_triplet cands, cands, scores)
  else .ok (none, [], [])

/-- Embedding of `SchemaCanonicalizer.canonicalize` (src/schema_canonicalization.py:221-279).
Returns the Python `(canonicalized_triplet_or_None, dict(zip(candidates, scores)))`
pair together with the state after the call; a raised exception is an
`.error` and leaves the state exactly as far as the Python code mutated
it before raising (the `KeyError` of line 265 is raised while evaluating
the right-hand side, before any mutation). -/
def canonicalize (emb : Embedder) (argsortNeg : List ℚ → List Nat)
    (verification_result : String) (st : CanonState)
    (open_triplet : List String)
    (open_relation_definition_dict : List (String × String)) (enrich : Bool) :
    Except PyErr (Option (List String) × List (String × ℚ)) × CanonState :=
  match open_triplet.get? 1 with
  | none => (.error .indexError, st)
  | some open_relation =>
  if dictContains st.schema_dict open_relation then
    (.ok (some open_triplet, []), st)
  else
    match canonicalizeAttempt emb argsortNeg verification_result st open_triplet
        open_relation_definition_dict open_relation with
    | .error e => (.error e, st)
    | .ok (copt, cands, scores) =>
        let info := (dictKeys cands).zip scores
        match copt with
        | some ct => (.ok (some ct, info), st)
        | none =>
            if enrich then
              match dictGet open_relation_definition_dict open_relation with
              | none => (.error .keyError, st)
              | some d =>
                  let st2 : CanonState :=
                    { schema_dict := dictSet st.schema_dict open_relation d,
                      schema_embedding_dict :=
                        dictSet st.schema_embedding_dict open_relation (encodeQuery emb d) }
                  (.ok (some open_triplet, info), st2)
            else (.ok (none, info), st)

/-- The diagnostics dictionary returned by the CoT `canonicalize`
(src/edc/schema_canonicalization_cot.py:304-308,378-383). -/
structure CotInfo where
  candidates : List (String × ℚ)
  reasoning : String
  confidence : ℚ

/-- The retrieval + verification stage of the CoT `canonicalize`
(src/edc/schema_canonicalization_cot.py:313-340). -/
def canonicalizeAttempt_cot (emb : Embedder) (argsortNeg : List ℚ → List Nat)
    (verification_result : String) (st : CanonState)
    (open_triplet : List String)
    (open_relation_definition_dict : List (String × String)) (open_relation : String) :
    Except PyErr (Option VerifyResult × List (String × String) × List ℚ) :=
  if st.schema_dict.length ≠ 0 then
    match dictGet open_relation_definition_dict open_relation with
    | none => .ok (none, [], [])
    | some d =>
        match retrieve_similar_relations emb argsortNeg st d 5 with
        | .error e => .error e
        | .ok (cands, scores) =>
            .ok (llm_verify_cot verification_result open_triplet cands, cands, scores)
  else .ok (none, [], [])

/-- Embedding of `SchemaCanonicalizer_CoT.canonicalize`
(src/edc/schema_canonicalization_cot.py:288-387). -/
def canonicalize_cot (emb : Embedder) (argsortNeg : List ℚ → List Nat)
    (verification_result : String) (st : CanonState)
    (open_triplet : List String)
    (open_relation_definition_dict : List (String × String)) (enrich : Bool) :
    Except PyErr (Option (List String) × CotInfo) × CanonState :=
  match open_triplet.get? 1 with
  | none => (.error .indexError, st)
  | some open_relation =>
  if dictContains st.schema_dict open_relation then
    (.ok (some open_triplet, { candidates := [], reasoning := "", confidence := 1 }), st)
  else
    match canonicalizeAttempt_cot emb argsortNeg verification_result st open_triplet
        open_relation_definition_dict open_relation with
    | .error e => (.error e, st)
    | .ok (vr, cands, scores) =>
        let candInfo := (dictKeys cands).zip scores
        match vr with
        | some v =>
            (.ok (some v.triplet,
                  { candidates := candInfo, reasoning := v.reasoning,
                    confidence := v.confidence }), st)
        | none =>
            if enrich then
              match dictGet open_relation_definition_dict open_relation with
              | none => (.error .keyError, st)
              | some d =>
                  let st2 : CanonState :=
                    { schema_dict := dictSet st.schema_dict open_relation d,
                      schema_embedding_dict :=
                        dictSet st.schema_embedding_dict open_relation (encodeQuery emb d) }
                  (.ok (some open_triplet,
                        { candidates := candInfo, reasoning := "", confidence := 0 }), st2)
            else
              (.ok (none, { candidates := candInfo, reasoning := "", confidence := 0 }), st)

/-! ## Specification-side definition for the CoT answer-extraction tiers -/

/-- First matching pattern of a list, with the stripped preceding text
and the upper-cased captured letter. -/
def firstPatternLetter (text : String) : List (List RTok) → Option (String × Char)
  | [] => none
  | p :: rest =>
      match searchToks p text.data with
      | some (k, some c) => some (pyStrip (strTake text k), upperChar c)
      | _ => firstPatternLetter text rest

/-- The confidence-tier contract of `extract_cot_answer`, written tier
by tier as the (amended) claim states it: an explicit final-answer
marker (最终答案 / Final Answer) yields confidence 1.0 with reasoning
the stripped text before the match; a plain answer marker (答案 /
Answer) yields 0.9; a letter extracted from the last non-empty line
yields 0.7 with reasoning the stripped join of the preceding lines; a
letter found scanning the full text yields 0.5 with reasoning the full
text; otherwise no letter and confidence 0.0. -/
def cotAnswerSpec (text : String) : String × Option Char × ℚ :=
  match firstPatternLetter text [patFinalAnswerCn, patFinalAnswerEn] with
  | some (reasoning, c) => (reasoning, some c, 1)
  | none =>
  match firstPatternLetter text [patAnswerCn, patAnswerEnCI] with
  | some (reasoning, c) => (reasoning, some c, 9/10)
  | none =>
      let lines := cotLines text
      match lines.getLast? with
      | some last_line =>
          match extract_option_letter_cot last_line with
          | some c => (pyStrip (String.intercalate ("\n") lines.dropLast), some c, 7/10)
          | none => cotScanFull text
      | none => cotScanFull text

/-! ## Helper lemmas about the dict model -/

theorem dictContains_eq_mem_keys {α : Type} (d : List (String × α)) (k : String) :
    dictContains d k = (dictKeys d).contains k := by
  induction d with
  | nil => rfl
  | cons p rest ih =>
      simp only [dictContains, dictKeys, List.any_cons, List.map_cons,
        List.contains_cons] at ih ⊢
      rw [ih]
      have hcomm : (p.1 == k) = (k == p.1) := by
        by_cases h : p.1 = k
        · simp [beq_iff_eq, h]
        · simp [beq_iff_eq, h, Ne.symm h]
      rw [hcomm]

theorem dictSet_of_not_contains {α : Type} (d : List (String × α)) (k : String) (v : α)
    (h : dictContains d k = false) : dictSet d k v = d ++ [(k, v)] := by
  simp [dictSet, h]

theorem dictKeys_append {α : Type} (d e : List (String × α)) :
    dictKeys (d ++ e) = dictKeys d ++ dictKeys e := by
  simp [dictKeys]

theorem dictContains_dictSet_self {α : Type} (d : List (String × α)) (k : String) (v : α) :
    dictContains (dictSet d k v) k = true := by
  by_cases h : dictContains d k = true
  · simp only [dictSet, h, if_true]
    simp only [dictContains, List.any_map] at h ⊢
    obtain ⟨p, hp, hbeq⟩ := List.any_eq_true.mp h
    exact List.any_eq_true.mpr ⟨p, hp, by simp [Function.comp, hbeq]⟩
  · rw [dictSet_of_not_contains d k v (by simpa using h)]
    simp [dictContains, List.any_append]

theorem find?_replaced {α : Type} (d : List (String × α)) (k : String) (v : α)
    (h : dictContains d k = true) :
    (d.map (fun p => if p.1 == k then (k, v) else p)).find? (fun p => p.1 == k)
      = some (k, v) := by
  induction d with
  | nil => simp [dictContains] at h
  | cons p rest ih =>
      by_cases hp : (p.1 == k) = true
      · rw [List.map_cons, if_pos hp]
        exact List.find?_cons_of_pos _ (by simp)
      · have hp' : (p.1 == k) = false := by simpa using hp
        rw [List.map_cons, if_neg (by simp [hp'])]
        rw [List.find?_cons_of_neg _ (by simp [hp'])]
        simp only [dictContains, List.any_cons, hp', Bool.false_or] at h
        exact ih h

theorem dictGet_dictSet_self {α : Type} (d : List (String × α)) (k : String) (v : α) :
    dictGet (dictSet d k v) k = some v := by
  by_cases h : dictContains d k = true
  · simp only [dictSet, h, if_true, dictGet]
    rw [find?_replaced d k v h]
    rfl
  · rw [dictSet_of_not_contains d k v (by simpa using h)]
    simp only [dictGet, List.find?_append]
    have hfind : d.find? (fun p => p.1 == k) = none := by
      rw [List.find?_eq_none]
      intro p hp hbeq
      simp only [dictContains] at h
      exact absurd (List.any_eq_true.mpr ⟨p, hp, hbeq⟩) h
    simp [hfind, List.find?]

/-! ## Letter-scheme helper lemmas -/

theorem choiceLetters_sequential (n : Nat) :
    choiceLetters n = (List.range n).map (fun i => Char.ofNat ('A'.toNat + i)) := by
  unfold choiceLetters
  apply List.map_congr_left
  intro i _
  have hA : 'A'.toNat = 65 := rfl
  rw [hA]
  exact congrArg Char.ofNat (by omega)

theorem noneLetter_eq (n : Nat) : noneLetter n = Char.ofNat ('A'.toNat + n) := by
  unfold noneLetter
  have hA : 'A'.toNat = 65 := rfl
  rw [hA]
  exact congrArg Char.ofNat (by omega)

theorem noneLetter_not_mem (n : Nat) (h : n ≤ 25) :
    noneLetter n ∉ choiceLetters n := by
  interval_cases n <;> decide

theorem choiceLetters_upper (n : Nat) (h : n ≤ 25) :
    ∀ c ∈ choiceLetters n, isUpperAZ c = true := by
  interval_cases n <;> decide

/-! ## Concrete fixtures used by witnesses and counterexamples -/

/-- A trivial embedding capability: every text embeds to `[1]`. -/
def embA : Embedder :=
  { hasStsQuery := false, encode := fun _ => [1], encodeSts := fun _ => [1] }

/-- A concrete stand-in for `np.argsort(-scores)`: the identity
permutation (any function of this type is admissible for the theorems
that take it as a parameter). -/
def argA (s : List ℚ) : List Nat := List.range s.length

/-- A canonicalizer whose target schema holds the single relation `R`. -/
def stA : CanonState := initCanonicalizer embA [("R", "rdef")]

/-! ## C1 -/

/-- C1 (amended): for every triplet whose relation label (index 1) is
already a key in the schema mapping, both variants return the input
triplet unchanged, regardless of the enrich flag, without touching the
state; the CoT variant's diagnostic info carries confidence 1.0 and an
empty candidate set, while the plain variant's diagnostic info is the
empty dict (so it has no confidence entry at all). -/
theorem already_canonical_returns_input_unchanged
    (emb : Embedder) (argsortNeg : List ℚ → List Nat) (rawP rawC : String)
    (st : CanonState) (t : List String) (defs : List (String × String))
    (enrichP enrichC : Bool) (rel : String)
    (h1 : t.get? 1 = some rel)
    (h2 : dictContains st.schema_dict rel = true) :
    canonicalize emb argsortNeg rawP st t defs enrichP = (.ok (some t, []), st)
    ∧ canonicalize_cot emb argsortNeg rawC st t defs enrichC =
        (.ok (some t, { candidates := [], reasoning := "", confidence := 1 }), st) := by
  constructor
  · unfold canonicalize
    rw [h1]
    simp [h2]
  · unfold canonicalize_cot
    rw [h1]
    simp [h2]

/-- Witness for C1's theorem at a concrete instance. -/
theorem already_canonical_returns_input_unchanged_witness :
    canonicalize embA argA ("") stA ["s", "R", "o"] [] true
      = (.ok (some ["s", "R", "o"], []), stA)
    ∧ canonicalize_cot embA argA ("") stA ["s", "R", "o"] [] false =
        (.ok (some ["s", "R", "o"],
              { candidates := [], reasoning := "", confidence := 1 }), stA) :=
  already_canonical_returns_input_unchanged embA argA ("") ("") stA
    ["s", "R", "o"] [] true false ("R") rfl rfl

/-- C1 counterexample: on the already-canonical path the plain variant's
diagnostic info is the empty dict `{}` (src/schema_canonicalization.py:235),
which contains no confidence entry at all — the claim's "info containing
confidence 1.0 … in both the plain and the CoT variant" fails for the
plain variant at this concrete input. -/
theorem plain_already_canonical_info_lacks_confidence :
    canonicalize embA argA ("") stA ["s", "R", "o"] [] true
      = (.ok (some ["s", "R", "o"], ([] : List (String × ℚ))), stA)
    ∧ dictGet ([] : List (String × ℚ)) ("confidence") = none :=
  ⟨rfl, rfl⟩

/-! ## C3 -/

/-- C3: with a non-empty schema, an open relation that is neither a
schema key nor a key of the supplied relation-definition dictionary, and
`enrich=True`, both variants raise `KeyError` while evaluating
`open_relation_definition_dict[open_relation]` on the enrichment path
(src/schema_canonicalization.py:265,
src/edc/schema_canonicalization_cot.py:359) — the call does not return
the original triplet with confidence 0.0 as the claim states. -/
theorem definition_missing_with_enrich_raises_keyerror :
    canonicalize embA argA ("") stA ["s", "N", "o"] [] true = (.error .keyError, stA)
    ∧ canonicalize_cot embA argA ("") stA ["s", "N", "o"] [] true = (.error .keyError, stA) :=
  ⟨rfl, rfl⟩

/-! ## C6 counterexample -/

/-- C6 counterexample: for the output `"x \nFinal Answer: B"` the
explicit-marker tier fires at match start 3, but the returned reasoning
is the *stripped* prefix `"x"`, not the text `"x \n"` preceding the
match, so "reasoning equal to the text preceding the match" fails as
stated. -/
theorem cot_reasoning_stripped_counterexample :
    extract_cot_answer ("x \nFinal Answer: B") = ("x", some 'B', 1)
    ∧ searchToks patFinalAnswerEn ("x \nFinal Answer: B").data = some (3, some 'B')
    ∧ strTake ("x \nFinal Answer: B") 3 = ("x \n")
    ∧ ("x" : String) ≠ ("x \n") := by
  refine ⟨rfl, rfl, rfl, by decide⟩

/-! ## C9 -/

/-- A 26-candidate dictionary, one past the single-letter limit the
claim asserts. -/
def cands26 : List (String × String) :=
  (List.range 26).map (fun i => ("c" ++ toString i, "d"))

/-- C9 counterexample: with 26 candidates (candidate count + 1 = 27 >
26) the prompt construction does **not** fail — there is no
`TooManyCandidatesError` anywhere in the code; `llm_verify` happily
returns a canonicalized triplet, and the "none of the above" option is
assigned the non-letter character `'['` (`chr(64 + 27)`). -/
theorem no_failure_beyond_26_candidates :
    llm_verify ("A") ["s", "r", "o"] cands26 = some ["s", "c0", "o"]
    ∧ noneLetter (dictKeys cands26).length = '['
    ∧ isUpperAZ (noneLetter (dictKeys cands26).length) = false
    ∧ (llm_verify_cot ("A") ["s", "r", "o"] cands26).isSome = true := by
  refine ⟨rfl, rfl, rfl, by decide⟩

/-- C9 (amended): the letter scheme never fails for any candidate count:
candidates get sequential characters `chr(ord('A') + i)` and the "none"
option gets `chr(ord('A') + n)`; when candidate count + 1 is within the
26-letter alphabet these are all uppercase letters (beyond that the
scheme silently continues into non-letter characters — see the
counterexample — instead of raising). -/
theorem choice_letter_scheme_uppercase_within_limit (n : Nat) (h : n + 1 ≤ 26) :
    choiceLetters n = (List.range n).map (fun i => Char.ofNat ('A'.toNat + i))
    ∧ noneLetter n = Char.ofNat ('A'.toNat + n)
    ∧ (∀ c ∈ choiceLetters n, isUpperAZ c = true)
    ∧ isUpperAZ (noneLetter n) = true := by
  have hn : n ≤ 25 := by omega
  refine ⟨choiceLetters_sequential n, noneLetter_eq n, choiceLetters_upper n hn, ?_⟩
  interval_cases n <;> decide

/-- Witness for C9's amended theorem at the default top-k of 5. -/
theorem choice_letter_scheme_uppercase_within_limit_witness :
    choiceLetters 5 = (List.range 5).map (fun i => Char.ofNat ('A'.toNat + i))
    ∧ noneLetter 5 = Char.ofNat ('A'.toNat + 5)
    ∧ (∀ c ∈ choiceLetters 5, isUpperAZ c = true)
    ∧ isUpperAZ (noneLetter 5) = true :=
  choice_letter_scheme_uppercase_within_limit 5 (by omega)

/-! ## Path lemmas for `canonicalize` -/

/-- The state produced by the enrichment transition: the open relation
and its definition enter the schema, and its (query-mode) embedding
enters the embedding cache. -/
def enrichedState (emb : Embedder) (st : CanonState) (rel d : String) : CanonState :=
  { schema_dict := dictSet st.schema_dict rel d,
    schema_embedding_dict := dictSet st.schema_embedding_dict rel (encodeQuery emb d) }

theorem canonicalizeAttempt_eval (emb : Embedder) (argsortNeg : List ℚ → List Nat)
    (raw : String) (st : CanonState) (t : List String)
    (defs : List (String × String)) (rel d : String)
    (cands : List (String × String)) (scores : List ℚ)
    (h3 : st.schema_dict.length ≠ 0)
    (h4 : dictGet defs rel = some d)
    (hret : retrieve_similar_relations emb argsortNeg st d 5 = .ok (cands, scores)) :
    canonicalizeAttempt emb argsortNeg raw st t defs rel =
      .ok (llm_verify raw t cands, cands, scores) := by
  unfold canonicalizeAttempt
  rw [if_pos h3, h4]
  simp only [hret]

theorem canonicalizeAttempt_cot_eval (emb : Embedder) (argsortNeg : List ℚ → List Nat)
    (raw : String) (st : CanonState) (t : List String)
    (defs : List (String × String)) (rel d : String)
    (cands : List (String × String)) (scores : List ℚ)
    (h3 : st.schema_dict.length ≠ 0)
    (h4 : dictGet defs rel = some d)
    (hret : retrieve_similar_relations emb argsortNeg st d 5 = .ok (cands, scores)) :
    canonicalizeAttempt_cot emb argsortNeg raw st t defs rel =
      .ok (llm_verify_cot raw t cands, cands, scores) := by
  unfold canonicalizeAttempt_cot
  rw [if_pos h3, h4]
  simp only [hret]

theorem canonicalize_verify_none (emb : Embedder) (argsortNeg : List ℚ → List Nat)
    (raw : String) (st : CanonState) (t : List String)
    (defs : List (String × String)) (enrich : Bool) (rel d : String)
    (cands : List (String × String)) (scores : List ℚ)
    (h1 : t.get? 1 = some rel)
    (h2 : dictContains st.schema_dict rel = false)
    (h3 : st.schema_dict.length ≠ 0)
    (h4 : dictGet defs rel = some d)
    (hret : retrieve_similar_relations emb argsortNeg st d 5 = .ok (cands, scores))
    (hv : llm_verify raw t cands = none) :
    canonicalize emb argsortNeg raw st t defs enrich =
      if enrich then (.ok (some t, (dictKeys cands).zip scores), enrichedState emb st rel d)
      else (.ok (none, (dictKeys cands).zip scores), st) := by
  unfold canonicalize
  rw [h1]
  simp only [h2, Bool.false_eq_true, if_false,
    canonicalizeAttempt_eval emb argsortNeg raw st t defs rel d cands scores h3 h4 hret, hv]
  cases enrich <;> simp [enrichedState, h4]

theorem canonicalize_cot_verify_none (emb : Embedder) (argsortNeg : List ℚ → List Nat)
    (raw : String) (st : CanonState) (t : List String)
    (defs : List (String × String)) (enrich : Bool) (rel d : String)
    (cands : List (String × String)) (scores : List ℚ)
    (h1 : t.get? 1 = some rel)
    (h2 : dictContains st.schema_dict rel = false)
    (h3 : st.schema_dict.length ≠ 0)
    (h4 : dictGet defs rel = some d)
    (hret : retrieve_similar_relations emb argsortNeg st d 5 = .ok (cands, scores))
    (hv : llm_verify_cot raw t cands = none) :
    canonicalize_cot emb argsortNeg raw st t defs enrich =
      if enrich then
        (.ok (some t, { candidates := (dictKeys cands).zip scores,
                        reasoning := "", confidence := 0 }),
         enrichedState emb st rel d)
      else
        (.ok (none, { candidates := (dictKeys cands).zip scores,
                      reasoning := "", confidence := 0 }), st) := by
  unfold canonicalize_cot
  rw [h1]
  simp only [h2, Bool.false_eq_true, if_false,
    canonicalizeAttempt_cot_eval emb argsortNeg raw st t defs rel d cands scores h3 h4 hret, hv]
  cases enrich <;> simp [enrichedState, h4]

/-- A letter that is `None`, the "none of the above" letter, or any
letter outside the candidate range is not mapped: `llm_verify` of the
plain variant returns `None`. -/
theorem llm_verify_none_of_unmapped (raw : String) (t : List String)
    (cands : List (String × String))
    (h : ∀ L, extract_option_letter raw = some L →
          L ∉ choiceLetters (dictKeys cands).length) :
    llm_verify raw t cands = none := by
  unfold llm_verify
  cases hx : extract_option_letter raw with
  | none => rfl
  | some L =>
      have hmem := h L hx
      have : (choiceLetters (dictKeys cands).length).indexOf? L = none := by
        rw [List.indexOf?_eq_none_iff]
        intro x hxmem hbeq
        exact hmem (by rwa [eq_of_beq hbeq] at hxmem)
      simp [this]

/-- The CoT analogue of `llm_verify_none_of_unmapped`. -/
theorem llm_verify_cot_none_of_unmapped (raw : String) (t : List String)
    (cands : List (String × String))
    (h : ∀ L, (extract_cot_answer raw).2.1 = some L →
          L ∉ choiceLetters (dictKeys cands).length) :
    llm_verify_cot raw t cands = none := by
  unfold llm_verify_cot
  cases hx : (extract_cot_answer raw).2.1 with
  | none => simp [hx]
  | some L =>
      have hmem := h L hx
      have : (choiceLetters (dictKeys cands).length).indexOf? L = none := by
        rw [List.indexOf?_eq_none_iff]
        intro x hxmem hbeq
        exact hmem (by rwa [eq_of_beq hbeq] at hxmem)
      simp [hx, this]

/-! ## C2 -/

/-- C2 (amended): with `enrich=True`, the open relation's definition
supplied, and verification producing no valid match, both variants:
(a) afterwards hold the open relation mapped to its exact supplied
definition in the schema mapping, and (b) return the original input
triplet; the CoT variant's returned confidence is 0.0, while the plain
variant returns only the candidate-score dict as info — it carries no
confidence value at all. -/
theorem enrich_after_failed_verification_updates_schema
    (emb : Embedder) (argsortNeg : List ℚ → List Nat) (rawP rawC : String)
    (st : CanonState) (t : List String) (defs : List (String × String))
    (rel d : String) (cands : List (String × String)) (scores : List ℚ)
    (h1 : t.get? 1 = some rel)
    (h2 : dictContains st.schema_dict rel = false)
    (h3 : st.schema_dict.length ≠ 0)
    (h4 : dictGet defs rel = some d)
    (hret : retrieve_similar_relations emb argsortNeg st d 5 = .ok (cands, scores))
    (hvP : llm_verify rawP t cands = none)
    (hvC : llm_verify_cot rawC t cands = none) :
    canonicalize emb argsortNeg rawP st t defs true =
      (.ok (some t, (dictKeys cands).zip scores), enrichedState emb st rel d)
    ∧ canonicalize_cot emb argsortNeg rawC st t defs true =
      (.ok (some t, { candidates := (dictKeys cands).zip scores,
                      reasoning := "", confidence := 0 }),
       enrichedState emb st rel d)
    ∧ dictGet (enrichedState emb st rel d).schema_dict rel = some d := by
  refine ⟨?_, ?_, dictGet_dictSet_self _ _ _⟩
  · simpa using
      canonicalize_verify_none emb argsortNeg rawP st t defs true rel d cands scores
        h1 h2 h3 h4 hret hvP
  · simpa using
      canonicalize_cot_verify_none emb argsortNeg rawC st t defs true rel d cands scores
        h1 h2 h3 h4 hret hvC

/-- Witness for C2's theorem at a concrete instance (empty model output,
so no letter can be extracted and verification fails). -/
theorem enrich_after_failed_verification_updates_schema_witness :
    canonicalize embA argA ("") stA ["s", "N", "o"] [("N", "ndef")] true =
      (.ok (some ["s", "N", "o"], [("R", 1)]), enrichedState embA stA ("N") ("ndef"))
    ∧ canonicalize_cot embA argA ("") stA ["s", "N", "o"] [("N", "ndef")] true =
      (.ok (some ["s", "N", "o"],
            { candidates := [("R", 1)], reasoning := "", confidence := 0 }),
       enrichedState embA stA ("N") ("ndef"))
    ∧ dictGet (enrichedState embA stA ("N") ("ndef")).schema_dict ("N") = some ("ndef") := by
  have h := enrich_after_failed_verification_updates_schema embA argA ("") ("") stA
    ["s", "N", "o"] [("N", "ndef")] ("N") ("ndef") [("R", "rdef")] [dot [1] [1]]
    rfl rfl (by decide) rfl rfl rfl rfl
  simpa [dot, dictKeys] using h

/-- C2 counterexample: on the enrich-after-failed-verification path the
plain variant's diagnostic info is `dict(zip(candidates, scores))`
(src/schema_canonicalization.py:279) — here the single candidate `R`
with its score — which contains no confidence entry, so "the returned
confidence is 0.0" fails as stated for the plain variant at this
concrete input (the triplet and the schema update themselves behave as
claimed). -/
theorem plain_enrich_info_lacks_confidence :
    (canonicalize embA argA ("") stA ["s", "N", "o"] [("N", "ndef")] true).1
      = .ok (some ["s", "N", "o"], [("R", dot [1] [1])])
    ∧ dictGet [("R", dot [1] [1])] ("confidence") = none :=
  ⟨rfl, rfl⟩

/-! ## C5 -/

/-- C5 (amended): for `n` candidates the "none of the above" option is
always `chr(ord('A') + n)`, which is never a candidate letter; an
extracted letter equal to the none letter, a letter outside the
candidate range, and an absent letter (all captured by "not a candidate
letter") yield the identical Unresolved outcome — `llm_verify` returns
`None` in both variants — and with `enrich=False` the call returns
absent, with confidence 0.0 in the CoT variant's info, while the plain
variant's info is just the candidate-score dict, carrying no
confidence. -/
theorem none_option_and_unresolved_outcome
    (emb : Embedder) (argsortNeg : List ℚ → List Nat) (rawP rawC : String)
    (st : CanonState) (t : List String) (defs : List (String × String))
    (rel d : String) (cands : List (String × String)) (scores : List ℚ)
    (hn : (dictKeys cands).length ≤ 25)
    (hP : ∀ L, extract_option_letter rawP = some L →
           L ∉ choiceLetters (dictKeys cands).length)
    (hC : ∀ L, (extract_cot_answer rawC).2.1 = some L →
           L ∉ choiceLetters (dictKeys cands).length)
    (h1 : t.get? 1 = some rel)
    (h2 : dictContains st.schema_dict rel = false)
    (h3 : st.schema_dict.length ≠ 0)
    (h4 : dictGet defs rel = some d)
    (hret : retrieve_similar_relations emb argsortNeg st d 5 = .ok (cands, scores)) :
    noneLetter (dictKeys cands).length
      = Char.ofNat ('A'.toNat + (dictKeys cands).length)
    ∧ noneLetter (dictKeys cands).length ∉ choiceLetters (dictKeys cands).length
    ∧ llm_verify rawP t cands = none
    ∧ llm_verify_cot rawC t cands = none
    ∧ canonicalize emb argsortNeg rawP st t defs false =
        (.ok (none, (dictKeys cands).zip scores), st)
    ∧ canonicalize_cot emb argsortNeg rawC st t defs false =
        (.ok (none, { candidates := (dictKeys cands).zip scores,
                      reasoning := "", confidence := 0 }), st) := by
  have hvP := llm_verify_none_of_unmapped rawP t cands hP
  have hvC := llm_verify_cot_none_of_unmapped rawC t cands hC
  refine ⟨noneLetter_eq _, noneLetter_not_mem _ hn, hvP, hvC, ?_, ?_⟩
  · simpa using
      canonicalize_verify_none emb argsortNeg rawP st t defs false rel d cands scores
        h1 h2 h3 h4 hret hvP
  · simpa using
      canonicalize_cot_verify_none emb argsortNeg rawC st t defs false rel d cands scores
        h1 h2 h3 h4 hret hvC

/-- Witness for C5's theorem: the schema has one candidate (`n = 1`, so
the candidate letter is `'A'` and the none letter is `'B'`), and the
model output is exactly the none letter `"B"`. -/
theorem none_option_and_unresolved_outcome_witness :
    noneLetter 1 = Char.ofNat ('A'.toNat + 1)
    ∧ noneLetter 1 ∉ choiceLetters 1
    ∧ llm_verify ("B") ["s", "N", "o"] [("R", "rdef")] = none
    ∧ llm_verify_cot ("B") ["s", "N", "o"] [("R", "rdef")] = none
    ∧ canonicalize embA argA ("B") stA ["s", "N", "o"] [("N", "ndef")] false =
        (.ok (none, [("R", 1)]), stA)
    ∧ canonicalize_cot embA argA ("B") stA ["s", "N", "o"] [("N", "ndef")] false =
        (.ok (none, { candidates := [("R", 1)], reasoning := "", confidence := 0 }), stA) := by
  have h := none_option_and_unresolved_outcome embA argA ("B") ("B") stA
    ["s", "N", "o"] [("N", "ndef")] ("N") ("ndef") [("R", "rdef")] [dot [1] [1]]
    (by decide)
    (by intro L hL
        rw [show extract_option_letter ("B") = some 'B' from rfl] at hL
        cases hL
        decide)
    (by intro L hL
        rw [show (extract_cot_answer ("B")).2.1 = some 'B' from rfl] at hL
        cases hL
        decide)
    rfl rfl (by decide) rfl rfl
  simpa [dot, dictKeys] using h

/-- C5 counterexample: when the model output is the none letter (`"B"`
with one candidate) and `enrich=False`, the plain variant returns
`(None, dict(zip(candidates, scores)))`
(src/schema_canonicalization.py:279): the triplet is absent as claimed,
but the info — the candidate-score dict — contains no confidence entry,
so "returns absent with confidence 0.0" fails as stated for the plain
variant at this concrete input. -/
theorem plain_unresolved_info_lacks_confidence :
    (canonicalize embA argA ("B") stA ["s", "N", "o"] [("N", "ndef")] false).1
      = .ok (none, [("R", dot [1] [1])])
    ∧ dictGet [("R", dot [1] [1])] ("confidence") = none :=
  ⟨rfl, rfl⟩

/-! ## C7 -/

theorem canonicalize_already_canonical (emb : Embedder) (argsortNeg : List ℚ → List Nat)
    (raw : String) (st : CanonState) (t : List String)
    (defs : List (String × String)) (enrich : Bool) (rel : String)
    (h1 : t.get? 1 = some rel)
    (h2 : dictContains st.schema_dict rel = true) :
    canonicalize emb argsortNeg raw st t defs enrich = (.ok (some t, []), st) := by
  unfold canonicalize
  rw [h1]
  simp [h2]

theorem canonicalize_cot_already_canonical (emb : Embedder) (argsortNeg : List ℚ → List Nat)
    (raw : String) (st : CanonState) (t : List String)
    (defs : List (String × String)) (enrich : Bool) (rel : String)
    (h1 : t.get? 1 = some rel)
    (h2 : dictContains st.schema_dict rel = true) :
    canonicalize_cot emb argsortNeg raw st t defs enrich =
      (.ok (some t, { candidates := [], reasoning := "", confidence := 1 }), st) := by
  unfold canonicalize_cot
  rw [h1]
  simp [h2]

/-- C7: once an `enrich=True` call has added the open relation to the
schema (the first two conjuncts pin the state after that call), a second
`canonicalize` on the same instance with any triplet bearing the same
relation label takes the already-canonical path, for any embedder,
argsort, raw output, definition dict and enrich flag: it returns that
triplet unchanged and leaves the schema mapping and the embedding cache
exactly as they were, in both variants. -/
theorem enrichment_idempotent_second_call
    (emb emb2 : Embedder) (argsortNeg arg2 : List ℚ → List Nat)
    (rawP rawC raw2P raw2C : String) (st : CanonState) (t t2P t2C : List String)
    (defs defs2 : List (String × String)) (enrich2P enrich2C : Bool)
    (rel d : String) (cands : List (String × String)) (scores : List ℚ)
    (h1 : t.get? 1 = some rel)
    (h1P : t2P.get? 1 = some rel) (h1C : t2C.get? 1 = some rel)
    (h2 : dictContains st.schema_dict rel = false)
    (h3 : st.schema_dict.length ≠ 0)
    (h4 : dictGet defs rel = some d)
    (hret : retrieve_similar_relations emb argsortNeg st d 5 = .ok (cands, scores))
    (hvP : llm_verify rawP t cands = none)
    (hvC : llm_verify_cot rawC t cands = none) :
    (canonicalize emb argsortNeg rawP st t defs true).2 = enrichedState emb st rel d
    ∧ (canonicalize_cot emb argsortNeg rawC st t defs true).2 = enrichedState emb st rel d
    ∧ dictContains (enrichedState emb st rel d).schema_dict rel = true
    ∧ canonicalize emb2 arg2 raw2P (enrichedState emb st rel d) t2P defs2 enrich2P =
        (.ok (some t2P, []), enrichedState emb st rel d)
    ∧ canonicalize_cot emb2 arg2 raw2C (enrichedState emb st rel d) t2C defs2 enrich2C =
        (.ok (some t2C, { candidates := [], reasoning := "", confidence := 1 }),
         enrichedState emb st rel d) := by
  have hcontains : dictContains (enrichedState emb st rel d).schema_dict rel = true :=
    dictContains_dictSet_self _ _ _
  refine ⟨?_, ?_, hcontains, ?_, ?_⟩
  · have e := canonicalize_verify_none emb argsortNeg rawP st t defs true rel d cands scores
      h1 h2 h3 h4 hret hvP
    simp only [if_true] at e
    rw [e]
  · have e := canonicalize_cot_verify_none emb argsortNeg rawC st t defs true rel d cands scores
      h1 h2 h3 h4 hret hvC
    simp only [if_true] at e
    rw [e]
  · exact canonicalize_already_canonical emb2 arg2 raw2P _ t2P defs2 enrich2P rel h1P hcontains
  · exact canonicalize_cot_already_canonical emb2 arg2 raw2C _ t2C defs2 enrich2C rel h1C hcontains

/-- Witness for C7's theorem: enrich `N` into the one-relation schema,
then canonicalize a triplet labelled `N` again. -/
theorem enrichment_idempotent_second_call_witness :
    (canonicalize embA argA ("") stA ["s", "N", "o"] [("N", "ndef")] true).2 =
      enrichedState embA stA ("N") ("ndef")
    ∧ (canonicalize_cot embA argA ("") stA ["s", "N", "o"] [("N", "ndef")] true).2 =
      enrichedState embA stA ("N") ("ndef")
    ∧ dictContains (enrichedState embA stA ("N") ("ndef")).schema_dict ("N") = true
    ∧ canonicalize embA argA ("") (enrichedState embA stA ("N") ("ndef"))
        ["x", "N", "y"] [] false =
        (.ok (some ["x", "N", "y"], []), enrichedState embA stA ("N") ("ndef"))
    ∧ canonicalize_cot embA argA ("") (enrichedState embA stA ("N") ("ndef"))
        ["x", "N", "y"] [] true =
        (.ok (some ["x", "N", "y"],
              { candidates := [], reasoning := "", confidence := 1 }),
         enrichedState embA stA ("N") ("ndef")) :=
  enrichment_idempotent_second_call embA embA argA argA ("") ("") ("") ("") stA
    ["s", "N", "o"] ["x", "N", "y"] ["x", "N", "y"] [("N", "ndef")] [] false true
    ("N") ("ndef") [("R", "rdef")] [dot [1] [1]]
    rfl rfl rfl rfl (by decide) rfl rfl rfl rfl

/-! ## C8 -/

theorem canonicalize_state_cases (emb : Embedder) (argsortNeg : List ℚ → List Nat)
    (raw : String) (st : CanonState) (t : List String)
    (defs : List (String × String)) (enrich : Bool) :
    (canonicalize emb argsortNeg raw st t defs enrich).2 = st
    ∨ ∃ rel d, dictContains st.schema_dict rel = false
        ∧ dictGet defs rel = some d
        ∧ (canonicalize emb argsortNeg raw st t defs enrich).2
            = enrichedState emb st rel d := by
  unfold canonicalize
  cases hg : t.get? 1 with
  | none => exact Or.inl rfl
  | some rel =>
      by_cases hc : dictContains st.schema_dict rel = true
      · exact Or.inl (by simp [hc])
      · have hc' : dictContains st.schema_dict rel = false := by simpa using hc
        simp only [hc', Bool.false_eq_true, if_false]
        cases hA : canonicalizeAttempt emb argsortNeg raw st t defs rel with
        | error e => exact Or.inl rfl
        | ok res =>
            obtain ⟨copt, cands, scores⟩ := res
            cases copt with
            | some ct => exact Or.inl rfl
            | none =>
                cases enrich with
                | false => exact Or.inl rfl
                | true =>
                    cases hd : dictGet defs rel with
                    | none => exact Or.inl (by simp)
                    | some d =>
                        exact Or.inr ⟨rel, d, hc', hd, by simp [enrichedState]⟩

theorem canonicalize_cot_state_cases (emb : Embedder) (argsortNeg : List ℚ → List Nat)
    (raw : String) (st : CanonState) (t : List String)
    (defs : List (String × String)) (enrich : Bool) :
    (canonicalize_cot emb argsortNeg raw st t defs enrich).2 = st
    ∨ ∃ rel d, dictContains st.schema_dict rel = false
        ∧ dictGet defs rel = some d
        ∧ (canonicalize_cot emb argsortNeg raw st t defs enrich).2
            = enrichedState emb st rel d := by
  unfold canonicalize_cot
  cases hg : t.get? 1 with
  | none => exact Or.inl rfl
  | some rel =>
      by_cases hc : dictContains st.schema_dict rel = true
      · exact Or.inl (by simp [hc])
      · have hc' : dictContains st.schema_dict rel = false := by simpa using hc
        simp only [hc', Bool.false_eq_true, if_false]
        cases hA : canonicalizeAttempt_cot emb argsortNeg raw st t defs rel with
        | error e => exact Or.inl rfl
        | ok res =>
            obtain ⟨vr, cands, scores⟩ := res
            cases vr with
            | some v => exact Or.inl rfl
            | none =>
                cases enrich with
                | false => exact Or.inl rfl
                | true =>
                    cases hd : dictGet defs rel with
                    | none => exact Or.inl (by simp)
                    | some d =>
                        exact Or.inr ⟨rel, d, hc', hd, by simp [enrichedState]⟩

theorem enrichedState_append (emb : Embedder) (st : CanonState) (rel d : String)
    (hinv : dictKeys st.schema_dict = dictKeys st.schema_embedding_dict)
    (hc : dictContains st.schema_dict rel = false) :
    (enrichedState emb st rel d).schema_dict = st.schema_dict ++ [(rel, d)]
    ∧ (enrichedState emb st rel d).schema_embedding_dict
        = st.schema_embedding_dict ++ [(rel, encodeQuery emb d)] := by
  have hce : dictContains st.schema_embedding_dict rel = false := by
    rw [dictContains_eq_mem_keys, ← hinv, ← dictContains_eq_mem_keys]
    exact hc
  exact ⟨dictSet_of_not_contains _ _ _ hc, dictSet_of_not_contains _ _ _ hce⟩

/-- C8: after construction the schema mapping and the embedding cache
have the same key sequence; and whenever a state satisfies that
invariant, it still holds after any `canonicalize` call of either
variant — the only mutation either call performs is the enrichment
transition, which appends exactly one relation to the schema together
with exactly one embedding for it. -/
theorem schema_and_embedding_keys_in_lockstep
    (embI emb : Embedder) (target : List (String × String))
    (argsortNeg : List ℚ → List Nat) (rawP rawC : String) (st : CanonState)
    (t : List String) (defs : List (String × String)) (enrichP enrichC : Bool)
    (hinv : dictKeys st.schema_dict = dictKeys st.schema_embedding_dict) :
    dictKeys (initCanonicalizer embI target).schema_dict
      = dictKeys (initCanonicalizer embI target).schema_embedding_dict
    ∧ dictKeys (canonicalize emb argsortNeg rawP st t defs enrichP).2.schema_dict
      = dictKeys (canonicalize emb argsortNeg rawP st t defs enrichP).2.schema_embedding_dict
    ∧ dictKeys (canonicalize_cot emb argsortNeg rawC st t defs enrichC).2.schema_dict
      = dictKeys (canonicalize_cot emb argsortNeg rawC st t defs enrichC).2.schema_embedding_dict
    ∧ ((canonicalize emb argsortNeg rawP st t defs enrichP).2 = st
       ∨ ∃ rel d, dictContains st.schema_dict rel = false
           ∧ (canonicalize emb argsortNeg rawP st t defs enrichP).2.schema_dict
               = st.schema_dict ++ [(rel, d)]
           ∧ (canonicalize emb argsortNeg rawP st t defs enrichP).2.schema_embedding_dict
               = st.schema_embedding_dict ++ [(rel, encodeQuery emb d)])
    ∧ ((canonicalize_cot emb argsortNeg rawC st t defs enrichC).2 = st
       ∨ ∃ rel d, dictContains st.schema_dict rel = false
           ∧ (canonicalize_cot emb argsortNeg rawC st t defs enrichC).2.schema_dict
               = st.schema_dict ++ [(rel, d)]
           ∧ (canonicalize_cot emb argsortNeg rawC st t defs enrichC).2.schema_embedding_dict
               = st.schema_embedding_dict ++ [(rel, encodeQuery emb d)]) := by
  have hinit : dictKeys (initCanonicalizer embI target).schema_dict
      = dictKeys (initCanonicalizer embI target).schema_embedding_dict := by
    simp [initCanonicalizer, dictKeys, List.map_map, Function.comp]
  have keysOf : ∀ st2 : CanonState,
      st2 = st ∨ (∃ rel d, dictContains st.schema_dict rel = false
        ∧ dictGet defs rel = some d ∧ st2 = enrichedState emb st rel d) →
      dictKeys st2.schema_dict = dictKeys st2.schema_embedding_dict := by
    rintro st2 (rfl | ⟨rel, d, hc, _, rfl⟩)
    · exact hinv
    · obtain ⟨hs, he⟩ := enrichedState_append emb st rel d hinv hc
      rw [hs, he, dictKeys_append, dictKeys_append, hinv]
      simp [dictKeys]
  have shapeOf : ∀ st2 : CanonState,
      st2 = st ∨ (∃ rel d, dictContains st.schema_dict rel = false
        ∧ dictGet defs rel = some d ∧ st2 = enrichedState emb st rel d) →
      st2 = st ∨ ∃ rel d, dictContains st.schema_dict rel = false
        ∧ st2.schema_dict = st.schema_dict ++ [(rel, d)]
        ∧ st2.schema_embedding_dict
            = st.schema_embedding_dict ++ [(rel, encodeQuery emb d)] := by
    rintro st2 (rfl | ⟨rel, d, hc, _, rfl⟩)
    · exact Or.inl rfl
    · obtain ⟨hs, he⟩ := enrichedState_append emb st rel d hinv hc
      exact Or.inr ⟨rel, d, hc, hs, he⟩
  refine ⟨hinit, ?_, ?_, ?_, ?_⟩
  · exact keysOf _ (canonicalize_state_cases emb argsortNeg rawP st t defs enrichP)
  · exact keysOf _ (canonicalize_cot_state_cases emb argsortNeg rawC st t defs enrichC)
  · exact shapeOf _ (canonicalize_state_cases emb argsortNeg rawP st t defs enrichP)
  · exact shapeOf _ (canonicalize_cot_state_cases emb argsortNeg rawC st t defs enrichC)

/-- Witness for C8's theorem: the one-relation schema satisfies the
invariant, and it is preserved across an enriching call. -/
theorem schema_and_embedding_keys_in_lockstep_witness :
    dictKeys (initCanonicalizer embA [("R", "rdef")]).schema_dict
      = dictKeys (initCanonicalizer embA [("R", "rdef")]).schema_embedding_dict
    ∧ dictKeys (canonicalize embA argA ("") stA ["s", "N", "o"] [("N", "ndef")] true).2.schema_dict
      = dictKeys (canonicalize embA argA ("") stA
          ["s", "N", "o"] [("N", "ndef")] true).2.schema_embedding_dict :=
  ⟨(schema_and_embedding_keys_in_lockstep embA embA [("R", "rdef")] argA ("") ("") stA
      ["s", "N", "o"] [("N", "ndef")] true true rfl).1,
   (schema_and_embedding_keys_in_lockstep embA embA [("R", "rdef")] argA ("") ("") stA
      ["s", "N", "o"] [("N", "ndef")] true true rfl).2.1⟩

/-! ## C10 -/

theorem get?_set_one (t : List String) (r : String) :
    ((t.set 1 r).get? 0 = t.get? 0) ∧ ((t.set 1 r).get? 2 = t.get? 2) := by
  cases t with
  | nil => exact ⟨rfl, rfl⟩
  | cons a rest =>
      cases rest with
      | nil => exact ⟨rfl, rfl⟩
      | cons b l => exact ⟨rfl, rfl⟩

theorem llm_verify_shape (raw : String) (t : List String)
    (cands : List (String × String)) :
    llm_verify raw t cands = none
    ∨ ∃ r, llm_verify raw t cands = some (t.set 1 r) := by
  unfold llm_verify
  dsimp only
  cases extract_option_letter raw with
  | none => exact Or.inl rfl
  | some L =>
      dsimp only
      cases (choiceLetters (dictKeys cands).length).indexOf? L with
      | none => exact Or.inl rfl
      | some i =>
          dsimp only
          cases (dictKeys cands).get? i with
          | none => exact Or.inl rfl
          | some rel => exact Or.inr ⟨rel, rfl⟩

theorem llm_verify_cot_shape (raw : String) (t : List String)
    (cands : List (String × String)) :
    llm_verify_cot raw t cands = none
    ∨ ∃ vr r, llm_verify_cot raw t cands = some vr ∧ vr.triplet = t.set 1 r := by
  unfold llm_verify_cot
  dsimp only
  cases (extract_cot_answer raw).2.1 with
  | none => exact Or.inl rfl
  | some L =>
      dsimp only
      cases (choiceLetters (dictKeys cands).length).indexOf? L with
      | none => exact Or.inl rfl
      | some i =>
          dsimp only
          cases (dictKeys cands).get? i with
          | none => exact Or.inl rfl
          | some rel => exact Or.inr ⟨_, rel, rfl, rfl⟩

theorem canonicalizeAttempt_copt_shape (emb : Embedder) (argsortNeg : List ℚ → List Nat)
    (raw : String) (st : CanonState) (t : List String)
    (defs : List (String × String)) (rel : String)
    (copt : Option (List String)) (cands : List (String × String)) (scores : List ℚ)
    (hA : canonicalizeAttempt emb argsortNeg raw st t defs rel = .ok (copt, cands, scores)) :
    copt = none ∨ ∃ r, copt = some (t.set 1 r) := by
  unfold canonicalizeAttempt at hA
  by_cases h3 : st.schema_dict.length ≠ 0
  · rw [if_pos h3] at hA
    cases hd : dictGet defs rel with
    | none =>
        simp only [hd, Except.ok.injEq, Prod.mk.injEq] at hA
        exact Or.inl hA.1.symm
    | some d =>
        simp only [hd] at hA
        cases hr : retrieve_similar_relations emb argsortNeg st d 5 with
        | error e => simp only [hr] at hA; exact absurd hA (by simp)
        | ok pr =>
            obtain ⟨cs, ss⟩ := pr
            simp only [hr, Except.ok.injEq, Prod.mk.injEq] at hA
            obtain ⟨h1, -, -⟩ := hA
            rw [← h1]
            exact llm_verify_shape raw t cs
  · rw [if_neg h3] at hA
    simp only [Except.ok.injEq, Prod.mk.injEq] at hA
    exact Or.inl hA.1.symm

theorem canonicalizeAttempt_cot_vr_shape (emb : Embedder) (argsortNeg : List ℚ → List Nat)
    (raw : String) (st : CanonState) (t : List String)
    (defs : List (String × String)) (rel : String)
    (vr : Option VerifyResult) (cands : List (String × String)) (scores : List ℚ)
    (hA : canonicalizeAttempt_cot emb argsortNeg raw st t defs rel
        = .ok (vr, cands, scores)) :
    vr = none ∨ ∃ v r, vr = some v ∧ v.triplet = t.set 1 r := by
  unfold canonicalizeAttempt_cot at hA
  by_cases h3 : st.schema_dict.length ≠ 0
  · rw [if_pos h3] at hA
    cases hd : dictGet defs rel with
    | none =>
        simp only [hd, Except.ok.injEq, Prod.mk.injEq] at hA
        exact Or.inl hA.1.symm
    | some d =>
        simp only [hd] at hA
        cases hr : retrieve_similar_relations emb argsortNeg st d 5 with
        | error e => simp only [hr] at hA; exact absurd hA (by simp)
        | ok pr =>
            obtain ⟨cs, ss⟩ := pr
            simp only [hr, Except.ok.injEq, Prod.mk.injEq] at hA
            obtain ⟨h1, -, -⟩ := hA
            rw [← h1]
            exact llm_verify_cot_shape raw t cs
  · rw [if_neg h3] at hA
    simp only [Except.ok.injEq, Prod.mk.injEq] at hA
    exact Or.inl hA.1.symm

theorem canonicalize_triplet_cases (emb : Embedder) (argsortNeg : List ℚ → List Nat)
    (raw : String) (st : CanonState) (t : List String)
    (defs : List (String × String)) (enrich : Bool) :
    (∃ e, (canonicalize emb argsortNeg raw st t defs enrich).1 = .error e)
    ∨ (∃ info, (canonicalize emb argsortNeg raw st t defs enrich).1 = .ok (none, info))
    ∨ (∃ info, (canonicalize emb argsortNeg raw st t defs enrich).1 = .ok (some t, info))
    ∨ (∃ r info, (canonicalize emb argsortNeg raw st t defs enrich).1
        = .ok (some (t.set 1 r), info)) := by
  unfold canonicalize
  cases hg : t.get? 1 with
  | none => exact Or.inl ⟨.indexError, rfl⟩
  | some rel =>
      by_cases hc : dictContains st.schema_dict rel = true
      · exact Or.inr (Or.inr (Or.inl ⟨[], by simp [hc]⟩))
      · have hc' : dictContains st.schema_dict rel = false := by simpa using hc
        simp only [hc', Bool.false_eq_true, if_false]
        cases hA : canonicalizeAttempt emb argsortNeg raw st t defs rel with
        | error e => exact Or.inl ⟨e, rfl⟩
        | ok res =>
            obtain ⟨copt, cands, scores⟩ := res
            rcases canonicalizeAttempt_copt_shape emb argsortNeg raw st t defs rel
                copt cands scores hA with hnone | ⟨r, hsome⟩
            · subst hnone
              cases enrich with
              | false => exact Or.inr (Or.inl ⟨(dictKeys cands).zip scores, by simp⟩)
              | true =>
                  cases hd : dictGet defs rel with
                  | none => exact Or.inl ⟨.keyError, by simp⟩
                  | some d =>
                      exact Or.inr (Or.inr (Or.inl ⟨(dictKeys cands).zip scores, by simp⟩))
            · subst hsome
              exact Or.inr (Or.inr (Or.inr ⟨r, (dictKeys cands).zip scores, by simp⟩))

theorem canonicalize_cot_triplet_cases (emb : Embedder) (argsortNeg : List ℚ → List Nat)
    (raw : String) (st : CanonState) (t : List String)
    (defs : List (String × String)) (enrich : Bool) :
    (∃ e, (canonicalize_cot emb argsortNeg raw st t defs enrich).1 = .error e)
    ∨ (∃ info, (canonicalize_cot emb argsortNeg raw st t defs enrich).1 = .ok (none, info))
    ∨ (∃ info, (canonicalize_cot emb argsortNeg raw st t defs enrich).1 = .ok (some t, info))
    ∨ (∃ r info, (canonicalize_cot emb argsortNeg raw st t defs enrich).1
        = .ok (some (t.set 1 r), info)) := by
  unfold canonicalize_cot
  cases hg : t.get? 1 with
  | none => exact Or.inl ⟨.indexError, rfl⟩
  | some rel =>
      by_cases hc : dictContains st.schema_dict rel = true
      · exact Or.inr (Or.inr (Or.inl ⟨⟨[], "", 1⟩, by simp [hc]⟩))
      · have hc' : dictContains st.schema_dict rel = false := by simpa using hc
        simp only [hc', Bool.false_eq_true, if_false]
        cases hA : canonicalizeAttempt_cot emb argsortNeg raw st t defs rel with
        | error e => exact Or.inl ⟨e, rfl⟩
        | ok res =>
            obtain ⟨vr, cands, scores⟩ := res
            rcases canonicalizeAttempt_cot_vr_shape emb argsortNeg raw st t defs rel
                vr cands scores hA with hnone | ⟨v, r, hsome, hv⟩
            · subst hnone
              cases enrich with
              | false =>
                  exact Or.inr (Or.inl ⟨⟨(dictKeys cands).zip scores, "", 0⟩, by simp⟩)
              | true =>
                  cases hd : dictGet defs rel with
                  | none => exact Or.inl ⟨.keyError, by simp⟩
                  | some d =>
                      exact Or.inr (Or.inr (Or.inl
                        ⟨⟨(dictKeys cands).zip scores, "", 0⟩, by simp⟩))
            · subst hsome
              exact Or.inr (Or.inr (Or.inr
                ⟨r, ⟨(dictKeys cands).zip scores, v.reasoning, v.confidence⟩,
                 by simp [hv]⟩))

/-- C10: the caller's triplet flows through unmodified: `llm_verify` of
either variant returns `None` or a fresh triplet that is the input with
only index 1 replaced (the source deep-copies before writing), and any
triplet returned by `canonicalize` of either variant is the original
input or such a rewrite — in every case positions 0 and 2 of a returned
triplet equal those of the input. -/
theorem returned_triplet_preserves_subject_object
    (emb : Embedder) (argsortNeg : List ℚ → List Nat) (rawP rawC : String)
    (st : CanonState) (t : List String) (defs : List (String × String))
    (enrichP enrichC : Bool) (cands : List (String × String)) :
    (llm_verify rawP t cands = none ∨ ∃ r, llm_verify rawP t cands = some (t.set 1 r))
    ∧ (llm_verify_cot rawC t cands = none
       ∨ ∃ vr r, llm_verify_cot rawC t cands = some vr ∧ vr.triplet = t.set 1 r)
    ∧ (∀ t2 info, (canonicalize emb argsortNeg rawP st t defs enrichP).1
          = .ok (some t2, info) →
        (t2 = t ∨ ∃ r, t2 = t.set 1 r)
        ∧ t2.get? 0 = t.get? 0 ∧ t2.get? 2 = t.get? 2)
    ∧ (∀ t2 info, (canonicalize_cot emb argsortNeg rawC st t defs enrichC).1
          = .ok (some t2, info) →
        (t2 = t ∨ ∃ r, t2 = t.set 1 r)
        ∧ t2.get? 0 = t.get? 0 ∧ t2.get? 2 = t.get? 2) := by
  refine ⟨llm_verify_shape rawP t cands, llm_verify_cot_shape rawC t cands, ?_, ?_⟩
  · intro t2 info h
    rcases canonicalize_triplet_cases emb argsortNeg rawP st t defs enrichP with
      ⟨e, he⟩ | ⟨i2, hi⟩ | ⟨i2, hi⟩ | ⟨r, i2, hi⟩
    · rw [he] at h; exact absurd h (by simp)
    · rw [hi] at h; simp at h
    · rw [hi] at h
      simp only [Except.ok.injEq, Prod.mk.injEq] at h
      obtain ⟨h1, -⟩ := h
      obtain rfl : t2 = t := by injection h1 with hh; exact hh.symm
      exact ⟨Or.inl rfl, rfl, rfl⟩
    · rw [hi] at h
      simp only [Except.ok.injEq, Prod.mk.injEq] at h
      obtain ⟨h1, -⟩ := h
      obtain rfl : t2 = t.set 1 r := by injection h1 with hh; exact hh.symm
      exact ⟨Or.inr ⟨r, rfl⟩, (get?_set_one t r).1, (get?_set_one t r).2⟩
  · intro t2 info h
    rcases canonicalize_cot_triplet_cases emb argsortNeg rawC st t defs enrichC with
      ⟨e, he⟩ | ⟨i2, hi⟩ | ⟨i2, hi⟩ | ⟨r, i2, hi⟩
    · rw [he] at h; exact absurd h (by simp)
    · rw [hi] at h; simp at h
    · rw [hi] at h
      simp only [Except.ok.injEq, Prod.mk.injEq] at h
      obtain ⟨h1, -⟩ := h
      obtain rfl : t2 = t := by injection h1 with hh; exact hh.symm
      exact ⟨Or.inl rfl, rfl, rfl⟩
    · rw [hi] at h
      simp only [Except.ok.injEq, Prod.mk.injEq] at h
      obtain ⟨h1, -⟩ := h
      obtain rfl : t2 = t.set 1 r := by injection h1 with hh; exact hh.symm
      exact ⟨Or.inr ⟨r, rfl⟩, (get?_set_one t r).1, (get?_set_one t r).2⟩

/-- Witness for C10's theorem: a Resolved-path call rewrites the
relation but keeps subject and object. -/
theorem returned_triplet_preserves_subject_object_witness :
    (["s", "R", "o"] : List String).get? 0 = (["s", "N", "o"] : List String).get? 0
    ∧ (["s", "R", "o"] : List String).get? 2 = (["s", "N", "o"] : List String).get? 2 := by
  have h := returned_triplet_preserves_subject_object embA argA ("A") ("A") stA
      ["s", "N", "o"] [("N", "ndef")] false false [("R", "rdef")]
  have h2 := h.2.2.1 ["s", "R", "o"] [("R", dot [1] [1])] rfl
  exact ⟨h2.2.1, h2.2.2⟩

/-! ## C6 -/

/-- C6 (amended): `extract_cot_answer` implements exactly the
confidence-tier contract, first match winning: an explicit final-answer
marker (最终答案 / Final Answer) yields the letter with confidence 1.0
and reasoning equal to the text preceding the match *stripped of
surrounding whitespace*; a plain answer marker (答案 / Answer) yields
0.9 with the same stripped-prefix reasoning; a letter extracted from the
last non-empty line yields 0.7 with reasoning the stripped preceding
lines joined; a letter found by scanning the full text yields 0.5 with
reasoning the full text; otherwise the letter is absent and the
confidence is 0.0. -/
theorem extract_cot_answer_matches_tier_spec (s : String) :
    extract_cot_answer s = cotAnswerSpec s := by
  unfold extract_cot_answer cotAnswerSpec
  simp only [cotPatterns, cotPatternScan, firstPatternLetter]
  rcases h1 : searchToks patFinalAnswerCn s.data with _ | ⟨k1, _ | c1⟩ <;>
    simp only [h1] <;> try rfl
  all_goals
    rcases h2 : searchToks patFinalAnswerEn s.data with _ | ⟨k2, _ | c2⟩ <;>
      simp only [h2] <;> try rfl
  all_goals
    rcases h3 : searchToks patAnswerCn s.data with _ | ⟨k3, _ | c3⟩ <;>
      simp only [h3] <;> try rfl
  all_goals
    rcases h4 : searchToks patAnswerEnCI s.data with _ | ⟨k4, _ | c4⟩ <;>
      simp only [h4]
